import Mathlib

/-!
Verification development for the theta-theta transformation module
(`ththmod.py`) of the scintools repository.

The Python module is embedded shallowly:

* numpy arrays become functions out of `Fin n` (when a fixed shape helps
  index reasoning) or `List`s (for the routines that slice to data-dependent
  sizes);
* complex numbers become the executable structure `CQ` with rational real
  and imaginary parts;
* machine floats become rationals; the external library routines that are
  not part of this repository (`np.sqrt`, `np.arcsinh`,
  `scipy.sparse.linalg.eigsh`, `scipy.optimize.curve_fit`, the FFTs and
  `matplotlib`) are abstracted as explicit function parameters, so every
  theorem quantifies over any model of them; closed witnesses instantiate
  the square-root parameter with the executable `ratSqrt` below;
* Python exceptions become `Option`/`Except`: a `none`/`.error` result of
  an embedded function models the Python function raising.

Numpy semantics that the embedding commits to (and that proofs rely on):

* integer fancy indexing accepts indices in `[-n, n)`; negative indices
  wrap around (`npIdx`); anything outside that range raises `IndexError`;
* `a -= b` on float arrays broadcasts: `b` of length 1 is a scalar,
  `b` of the same length is elementwise, any other length raises;
* `//` on floats is `Int.floor` of the quotient, and `.astype(int)` of an
  exact integral float is that integer;
* `np.diff(x).mean()` of an array on an axis of length `k ≥ 2` equals
  `(x[k-1] - x[0]) / (k-1)` (telescoping); for `k < 2` numpy produces NaN,
  which the embedding renders as the junk value `0` — no theorem below
  depends on that corner;
* truthiness of a boolean array (`if arr == None:`) is the value for a
  1-element array and raises `ValueError` otherwise (`npIsNone`).
-/

/-- Executable stand-in used to instantiate the abstract square-root
parameter inside closed witnesses and counterexamples: exact on rationals
whose numerator times denominator is a perfect square, nonnegative
everywhere, zero exactly on nonpositive inputs. -/
def ratSqrt (q : ℚ) : ℚ :=
  if 0 < q then (Nat.sqrt (q.num.toNat * q.den) : ℚ) / (q.den : ℚ) else 0

/-- Complex numbers with rational components: the executable embedding of
the `complex` dtype of the arrays in `ththmod.py`. -/
structure CQ where
  re : ℚ
  im : ℚ
deriving DecidableEq

instance : Zero CQ := ⟨⟨0, 0⟩⟩

instance : Add CQ := ⟨fun a b => ⟨a.re + b.re, a.im + b.im⟩⟩

instance : Neg CQ := ⟨fun a => ⟨-a.re, -a.im⟩⟩

instance : Sub CQ := ⟨fun a b => ⟨a.re - b.re, a.im - b.im⟩⟩

instance : Mul CQ := ⟨fun a b => ⟨a.re * b.re - a.im * b.im, a.re * b.im + a.im * b.re⟩⟩

/-- Complex conjugation (`np.conjugate`). -/
def CQ.conj (a : CQ) : CQ := ⟨a.re, -a.im⟩

/-- Embedding of a real scalar into `CQ`. -/
def CQ.ofQ (r : ℚ) : CQ := ⟨r, 0⟩

/-- Division of a complex value by a real scalar (`arr / s`); division by
zero is the junk value `0` (numpy would give inf/NaN — no theorem below
relies on that corner). -/
def CQ.divQ (a : CQ) (r : ℚ) : CQ := ⟨a.re / r, a.im / r⟩

/-- Numpy integer-array indexing into an axis of length `n`: indices in
`[-n, n)` are accepted and negative ones wrap around; anything else raises
`IndexError`, modelled as `none`. -/
def npIdx (n : ℕ) (i : ℤ) : Option (Fin n) :=
  if h : 0 < n ∧ -(n : ℤ) ≤ i ∧ i < (n : ℤ) then
    some ⟨(i % (n : ℤ)).toNat, by
      have h0 : (0 : ℤ) < (n : ℤ) := by exact_mod_cast h.1
      have h1 : 0 ≤ i % (n : ℤ) := Int.emod_nonneg i (by omega)
      have h2 : i % (n : ℤ) < (n : ℤ) := Int.emod_lt_of_pos i h0
      omega⟩
  else none

/-- Total version of the wrapped double lookup `SS[ti, fi]`, with junk
value `0` outside the numpy-accepted index range. -/
def SSwrap {nt nf : ℕ} (SS : Fin nt → Fin nf → CQ) (ti fi : ℤ) : CQ :=
  ((npIdx nt ti).bind fun a => (npIdx nf fi).map fun b => SS a b).getD 0

/-- Executable binary minimum on rationals (evaluation-friendly spelling of
`min`). -/
def qmin (a b : ℚ) : ℚ := if a ≤ b then a else b

/-- Executable binary maximum on rationals. -/
def qmax (a b : ℚ) : ℚ := if b ≤ a then a else b

/-- Executable absolute value on rationals (evaluation-friendly spelling of
`|·|`, the embedding of `np.abs`). -/
def qabs (a : ℚ) : ℚ := if a < 0 then -a else a

/-- Minimum of a rational list, junk `0` on the empty list (numpy raises on
`min` of an empty array; callers guard). -/
def minAbsL (l : List ℚ) : ℚ :=
  match l.map qabs with
  | [] => 0
  | a :: as => as.foldl qmin a

/-- Maximum of a rational list, junk `0` on the empty list. -/
def maxL (l : List ℚ) : ℚ :=
  match l with
  | [] => 0
  | a :: as => as.foldl qmax a

/-- Midpoints of consecutive bin edges: `(edges[1:] + edges[:-1]) / 2`. -/
def centersRaw {n : ℕ} (e : Fin (n + 1) → ℚ) : Fin n → ℚ :=
  fun i => (e i.castSucc + e i.succ) / 2

/-- The center list as a `List`, in index order. -/
def centersList {n : ℕ} (e : Fin (n + 1) → ℚ) : List ℚ :=
  (List.finRange n).map fun i => centersRaw e i

/-- Value of `np.abs(th_cents).min()` (junk `0` when there are no centers;
numpy raises there and `binCentersF` returns `none`). -/
def centersMinAbs {n : ℕ} (e : Fin (n + 1) → ℚ) : ℚ := minAbsL (centersList e)

/-- Indices selected by the mask
`np.abs(th_cents) == np.abs(th_cents).min()`, in index order. -/
def selIdx {n : ℕ} (e : Fin (n + 1) → ℚ) : List (Fin n) :=
  (List.finRange n).filter fun i => qabs (centersRaw e i) = centersMinAbs e

/-- The bin-center computation repeated at lines 44-45, 96-97, 124-125 and
192-193 of `ththmod.py`: midpoints of consecutive edges, then
`th_cents -= th_cents[np.abs(th_cents) == np.abs(th_cents).min()]`.
The subtrahend is an array: 1 selected element broadcasts as a scalar, a
full-length selection subtracts elementwise (pointwise zero), and any other
selection count raises a broadcast `ValueError` (`none`). An empty center
array makes `np.min` raise (`none`). -/
def binCentersF {n : ℕ} (e : Fin (n + 1) → ℚ) : Option (Fin n → ℚ) :=
  if hn : 0 < n then
    if (selIdx e).length = 1 then
      some fun j => centersRaw e j - centersRaw e ((selIdx e).headD ⟨0, hn⟩)
    else if (selIdx e).length = n then
      some fun j => centersRaw e j - centersRaw e j
    else none
  else none

/-- A secondary spectrum together with its delay and Doppler axes,
`SS` indexed `[tau, fd]` as in the source. -/
structure SSGrid (nt nf : ℕ) where
  SS : Fin nt → Fin nf → CQ
  tau : Fin nt → ℚ
  fd : Fin nf → ℚ

/-- First element of an axis (`tau[0]`), junk `0` for an empty axis. -/
def headF {n : ℕ} (f : Fin n → ℚ) : ℚ := if h : 0 < n then f ⟨0, h⟩ else 0

/-- Mean axis step `np.diff(x).mean() = (x[n-1] - x[0]) / (n-1)`; numpy
produces NaN for `n < 2`, rendered as the junk value `0` (no theorem
depends on that corner). -/
def meanDiffF {n : ℕ} (f : Fin n → ℚ) : ℚ :=
  if h : 1 < n then (f ⟨n - 1, by omega⟩ - f ⟨0, by omega⟩) / ((n : ℚ) - 1) else 0

/-- Value of `x.max()` over an axis, junk `0` when empty. -/
def maxF {n : ℕ} (f : Fin n → ℚ) : ℚ := maxL ((List.finRange n).map f)

/-- Line 55-56 of `ththmod.py`: the delay-axis index each θθ cell maps back
to, `tau_inv = ((eta*(th1**2 - th2**2) - tau[0] + dtau/2) // dtau)`, where
`th1[i,j] = c j` and `th2[i,j] = c i`. -/
def tauInvG {nt nf m : ℕ} (g : SSGrid nt nf) (eta : ℚ) (c : Fin m → ℚ)
    (i j : Fin m) : ℤ :=
  ⌊(eta * (c j ^ 2 - c i ^ 2) - headF g.tau + meanDiffF g.tau / 2) / meanDiffF g.tau⌋

/-- Line 57 of `ththmod.py`: the Doppler-axis index each θθ cell maps back
to, `fd_inv = ((th1 - th2 - fd[0] + dfd/2) // dfd)`. -/
def fdInvG {nt nf m : ℕ} (g : SSGrid nt nf) (c : Fin m → ℚ) (i j : Fin m) : ℤ :=
  ⌊((c j - c i) - headF g.fd + meanDiffF g.fd / 2) / meanDiffF g.fd⌋

/-- Line 63 of `ththmod.py`: the fill mask
`pnts = (tau_inv > 0) * (tau_inv < tau.shape[0]) * (fd_inv < fd.shape[0])`.
Note the strict tau lower bound and the absent fd lower bound. -/
def popF (nt nf : ℕ) (ti fi : ℤ) : Bool :=
  decide (0 < ti) && decide (ti < (nt : ℤ)) && decide (fi < (nf : ℤ))

/-- One cell of the fill step `thth[pnts] = SS[tau_inv[pnts], fd_inv[pnts]]`:
unseleted cells stay `0`; selected cells perform a numpy fancy lookup whose
index may wrap (negative `fd_inv`) or raise (`none`). -/
def entryOptG {nt nf m : ℕ} (g : SSGrid nt nf) (eta : ℚ) (c : Fin m → ℚ)
    (i j : Fin m) : Option CQ :=
  if popF nt nf (tauInvG g eta c i j) (fdInvG g c i j) = true then
    (npIdx nt (tauInvG g eta c i j)).bind fun a =>
      (npIdx nf (fdInvG g c i j)).map fun b => g.SS a b
  else some 0

/-- Executable check that no cell of the fill step raises. -/
def fillOk {nt nf m : ℕ} (g : SSGrid nt nf) (eta : ℚ) (c : Fin m → ℚ) : Bool :=
  (List.finRange m).all fun i => (List.finRange m).all fun j =>
    (entryOptG g eta c i j).isSome

/-- Lines 60-64 of `ththmod.py`: the filled (pre-scaling, pre-symmetrization)
θθ matrix; `none` when any selected lookup raises `IndexError`. -/
def ththFillOpt {nt nf m : ℕ} (g : SSGrid nt nf) (eta : ℚ) (c : Fin m → ℚ) :
    Option (Fin m → Fin m → CQ) :=
  if fillOk g eta c = true then
    some fun i j => (entryOptG g eta c i j).getD 0
  else none

/-- Line 67 of `ththmod.py`: flux-preserving scaling
`thth *= np.sqrt(np.abs(2*eta*(th2 - th1)))` with `th2 - th1 = c i - c j`;
the external `np.sqrt` is the abstract parameter `sqrtA`. -/
def scaleM {m : ℕ} (sqrtA : ℚ → ℚ) (eta : ℚ) (c : Fin m → ℚ)
    (M : Fin m → Fin m → CQ) : Fin m → Fin m → CQ :=
  fun i j => M i j * CQ.ofQ (sqrtA (qabs (2 * eta * (c i - c j))))

/-- Entries of `np.tril(M)` (at or below the main diagonal). -/
def trilM {m : ℕ} (M : Fin m → Fin m → CQ) : Fin m → Fin m → CQ :=
  fun i j => if (j : ℕ) ≤ (i : ℕ) then M i j else 0

/-- Entries of `np.triu(M)` (at or above the main diagonal). -/
def triuM {m : ℕ} (M : Fin m → Fin m → CQ) : Fin m → Fin m → CQ :=
  fun i j => if (i : ℕ) ≤ (j : ℕ) then M i j else 0

/-- Elementwise matrix subtraction. -/
def matSub {m : ℕ} (A B : Fin m → Fin m → CQ) : Fin m → Fin m → CQ :=
  fun i j => A i j - B i j

/-- Elementwise matrix addition. -/
def matAdd {m : ℕ} (A B : Fin m → Fin m → CQ) : Fin m → Fin m → CQ :=
  fun i j => A i j + B i j

/-- Conjugate transpose `np.conjugate(M.T)`. -/
def conjT {m : ℕ} (M : Fin m → Fin m → CQ) : Fin m → Fin m → CQ :=
  fun i j => (M j i).conj

/-- The diagonal part `np.diag(np.diag(M))`. -/
def diagP {m : ℕ} (M : Fin m → Fin m → CQ) : Fin m → Fin m → CQ :=
  fun i j => if i = j then M i j else 0

/-- The anti-diagonal part `np.diag(np.diag(M[::-1, :]))[::-1, :]`. -/
def adiagP {m : ℕ} (M : Fin m → Fin m → CQ) : Fin m → Fin m → CQ :=
  fun i j => if (i : ℕ) + (j : ℕ) = m - 1 then M i j else 0

/-- Line 70 of `ththmod.py`: `thth -= np.tril(thth)`. -/
def hermStep1 {m : ℕ} (M : Fin m → Fin m → CQ) : Fin m → Fin m → CQ :=
  matSub M (trilM M)

/-- Line 71 of `ththmod.py`: `thth += np.conjugate(np.triu(thth).T)`. -/
def hermStep2 {m : ℕ} (M : Fin m → Fin m → CQ) : Fin m → Fin m → CQ :=
  matAdd (hermStep1 M) (conjT (triuM (hermStep1 M)))

/-- Line 72 of `ththmod.py`: `thth -= np.diag(np.diag(thth))`. -/
def hermStep3 {m : ℕ} (M : Fin m → Fin m → CQ) : Fin m → Fin m → CQ :=
  matSub (hermStep2 M) (diagP (hermStep2 M))

/-- Lines 70-74 of `ththmod.py`: the Hermitian-forcing block (subtract the
lower triangle, add back the conjugate transpose of the upper triangle,
zero the diagonal and the anti-diagonal). `np.nan_to_num` is the identity
on the NaN-free rational embedding. -/
def forceHerm {m : ℕ} (M : Fin m → Fin m → CQ) : Fin m → Fin m → CQ :=
  matSub (hermStep3 M) (adiagP (hermStep3 M))

/-- The Forward Mapper `thth_map` of `ththmod.py` (lines 32-76): bin
centers, fill by inverse lookup into the secondary spectrum, flux scaling,
Hermitian forcing. `none` models the function raising. -/
def thth_map {nt nf m : ℕ} (sqrtA : ℚ → ℚ) (g : SSGrid nt nf) (eta : ℚ)
    (edges : Fin (m + 1) → ℚ) : Option (Fin m → Fin m → CQ) :=
  (binCentersF edges).bind fun c =>
    (ththFillOpt g eta c).map fun F => forceHerm (scaleM sqrtA eta c F)

/-- Line 98-99 of `ththmod.py`: the retention condition of the
Reduced-Domain Selector,
`(th_cents**2)*eta < |tau.max()|` and `|th_cents| < |fd.max()|/2`. -/
def keepCond (eta tauMaxAbs fdMaxAbs x : ℚ) : Bool :=
  decide (x ^ 2 * eta < tauMaxAbs) && decide (qabs x < fdMaxAbs / 2)

/-- Indices of the retained bin centers (`th_pnts`), in ascending order. -/
def keepIdx {nt nf m : ℕ} (g : SSGrid nt nf) (eta : ℚ) (c : Fin m → ℚ) :
    List (Fin m) :=
  (List.finRange m).filter fun i => keepCond eta (qabs (maxF g.tau)) (qabs (maxF g.fd)) (c i)

/-- Midpoints of a list (`(x[:-1] + x[1:]) / 2`). -/
def midsL (l : List ℚ) : List ℚ :=
  List.zipWith (fun a b => (a + b) / 2) l l.tail

/-- Mean difference `np.diff(l).mean() = (last - head)/(len-1)`; numpy
produces NaN for lists shorter than 2, rendered as junk `0` (the reduced
edges computed from it are not used by any theorem below). -/
def meanDiffL (l : List ℚ) : ℚ :=
  if 2 ≤ l.length then (l.getLastD 0 - l.headD 0) / ((l.length : ℚ) - 1) else 0

/-- The Reduced-Domain Selector `thth_redmap` of `ththmod.py` (lines
79-108): full forward map, recomputed centers, retention mask, slice on
both axes, reduced edges (midpoints extended by one mean spacing at each
end). Fewer than two retained centers make `edges_red[0]` raise
(`none`). -/
def thth_redmap {nt nf m : ℕ} (sqrtA : ℚ → ℚ) (g : SSGrid nt nf) (eta : ℚ)
    (edges : Fin (m + 1) → ℚ) : Option (List (List CQ) × List ℚ) :=
  (thth_map sqrtA g eta edges).bind fun M =>
    (binCentersF edges).bind fun c =>
      if (keepIdx g eta c).length ≤ 1 then none
      else
        let er := midsL ((keepIdx g eta c).map c)
        some ((keepIdx g eta c).map fun i => (keepIdx g eta c).map fun j => M i j,
          (er.headD 0 - meanDiffL er) :: (er ++ [er.getLastD 0 + meanDiffL er]))

/-- Squared Euclidean norm `(np.abs(v0)**2).sum()` of a complex row. -/
def rowNorm2 (r : List CQ) : ℚ := (r.map fun z => z.re ^ 2 + z.im ^ 2).sum

/-- Lines 186-187 of `ththmod.py`: `v0 = thth_red[thth_red.shape[0]//2, :]`
followed by `v0 /= np.sqrt((np.abs(v0)**2).sum())`. -/
def evalPrepRow (sqrtA : ℚ → ℚ) (R : List (List CQ)) : List CQ :=
  (R.getD (R.length / 2) []).map fun z =>
    z.divQ (sqrtA (rowNorm2 (R.getD (R.length / 2) [])))

/-- Because `v0` is a numpy view of `thth_red`, the in-place division at
line 187 of `ththmod.py` also rescales the central row of the matrix that
is subsequently passed to `eigsh`: this is that mutated matrix. -/
def evalPrepMatrix (sqrtA : ℚ → ℚ) (R : List (List CQ)) : List (List CQ) :=
  R.set (R.length / 2) (evalPrepRow sqrtA R)

/-- `Eval_calc` of `ththmod.py` (lines 183-189): reduced map, in-place
normalized central row as the seed, then the external Hermitian eigensolver
`eigsh(thth_red, 1, v0=v0)`, abstracted as `eigshW` (returning `w[0]`);
the recorded value is `np.abs(w[0])`. -/
def Eval_calc {nt nf m : ℕ} (sqrtA : ℚ → ℚ)
    (eigshW : List (List CQ) → List CQ → ℚ) (g : SSGrid nt nf) (eta : ℚ)
    (edges : Fin (m + 1) → ℚ) : Option ℚ :=
  (thth_redmap sqrtA g eta edges).map fun p =>
    qabs (eigshW (evalPrepMatrix sqrtA p.1) (evalPrepRow sqrtA p.1))

/-- Decidable Hermitian test for a square list-of-rows complex matrix. -/
def isHermL (R : List (List CQ)) : Bool :=
  (List.range R.length).all fun i => (List.range R.length).all fun j =>
    (R.getD i []).getD j 0 = ((R.getD j []).getD i 0).conj

/-- Concrete delay axis `[-2, -1, 0, 1]` (an fftshifted axis with step 1),
used by the closed witnesses below. -/
def cTau : Fin 4 → ℚ := ![-2, -1, 0, 1]

/-- Concrete Doppler axis `[-8, -6, ..., 6]` with step 2. -/
def cFd8 : Fin 8 → ℚ := ![-8, -6, -4, -2, 0, 2, 4, 6]

/-- Concrete secondary spectrum with a single nonzero pixel at
`SS[2, 5] = 5`. -/
def cSS : Fin 4 → Fin 8 → CQ := fun i j => if i.val = 2 ∧ j.val = 5 then ⟨5, 0⟩ else 0

/-- Concrete well-behaved grid for the witnesses. -/
def cGrid : SSGrid 4 8 := ⟨cSS, cTau, cFd8⟩

/-- Concrete symmetric edges `[-3, -1, 1, 3]`, giving centers `[-2, 0, 2]`. -/
def cEdges : Fin 4 → ℚ := ![-3, -1, 1, 3]

/-- Concrete curvature `1/10` for the witnesses. -/
def cEta : ℚ := 1 / 10

/-- Concrete Doppler axis `[-2, -1, 0, 1]` that is much narrower than the
theta range of `xEdges`: lower-triangle cells then get `fd_inv` indices
below `-len(fd)`. -/
def xFd : Fin 4 → ℚ := ![-2, -1, 0, 1]

/-- Concrete all-ones secondary spectrum. -/
def xSS : Fin 4 → Fin 4 → CQ := fun _ _ => ⟨1, 0⟩

/-- Concrete grid for the out-of-range counterexample. -/
def xGrid : SSGrid 4 4 := ⟨xSS, cTau, xFd⟩

/-- Concrete wide symmetric edges `[-15, -5, 5, 15]`, centers `[-10, 0, 10]`. -/
def xEdges : Fin 4 → ℚ := ![-15, -5, 5, 15]

/-- Concrete small curvature keeping `tau_inv` inside its window when the
centers are far apart. -/
def xEta : ℚ := 1 / 1000

/-- The concrete Forward Mapper output on the witness inputs. -/
def cM : Fin 3 → Fin 3 → CQ := fun i j =>
  if ((i : ℕ) = 0 ∧ (j : ℕ) = 1) ∨ ((i : ℕ) = 1 ∧ (j : ℕ) = 0) ∨
      ((i : ℕ) = 1 ∧ (j : ℕ) = 2) ∨ ((i : ℕ) = 2 ∧ (j : ℕ) = 1) then ⟨3, 0⟩ else 0

/-- The concrete bin centers of `cEdges`. -/
def cCent : Fin 3 → ℚ := ![-2, 0, 2]

/-- The concrete reduced θθ matrix of the witness inputs. -/
def cRed : List (List CQ) :=
  [[0, ⟨3, 0⟩, 0], [⟨3, 0⟩, 0, ⟨3, 0⟩], [0, ⟨3, 0⟩, 0]]

/-- The concrete reduced edges of the witness inputs. -/
def cEdgesRed : List ℚ := [-3, -1, 1, 3]

/-- `len_arc` of `ththmod.py` (lines 206-208): closed-form arc length of
the parabola, `(a*x*sqrt((a*x)**2 + 1) + arcsinh(a*x)) / (2*a)` with
`a = 2*eta`; the external `np.sqrt` and `np.arcsinh` are the abstract
parameters `sqrtA` and `asinhA`. -/
def len_arc (sqrtA asinhA : ℚ → ℚ) (x eta : ℚ) : ℚ :=
  (2 * eta * x * sqrtA ((2 * eta * x) ^ 2 + 1) + asinhA (2 * eta * x)) / (2 * (2 * eta))

/-- The sequential first-order recurrence of `arc_edges` (lines 215-218):
`x[0] = dl/2`, `x[i+1] = x[i] + dl / sqrt(1 + (2*eta_ul*x[i])**2)`. -/
def arcX (sqrtA : ℚ → ℚ) (dl etaUl : ℚ) : ℕ → ℚ
  | 0 => dl / 2
  | i + 1 => arcX sqrtA dl etaUl i + dl / sqrtA (1 + (2 * etaUl * arcX sqrtA dl etaUl i) ^ 2)

/-- `arc_edges` of `ththmod.py` (lines 210-220): the equal-arc-length theta
bin edges, `np.concatenate((-x[::-1], x)) * dfd` where `x` has `n//2`
entries built by the recurrence `arcX`. -/
def arc_edges (sqrtA asinhA : ℚ → ℚ) (eta dfd dtau fdMax : ℚ) (n : ℕ) : List ℚ :=
  ((((List.range (n / 2)).map
        (arcX sqrtA
          (len_arc sqrtA asinhA (fdMax / dfd) (dfd ^ 2 * eta / dtau) /
            (((n / 2 : ℕ) : ℚ) - 1 / 2))
          (dfd ^ 2 * eta / dtau))).reverse.map fun t => -t) ++
      (List.range (n / 2)).map
        (arcX sqrtA
          (len_arc sqrtA asinhA (fdMax / dfd) (dfd ^ 2 * eta / dtau) /
            (((n / 2 : ℕ) : ℚ) - 1 / 2))
          (dfd ^ 2 * eta / dtau))).map fun t => t * dfd

/-- Numpy `np.sqrt` on a real scalar: NaN (`none`) for negative input, the
abstract square root otherwise. -/
def npSqrtQ (sqrtA : ℚ → ℚ) (x : ℚ) : Option ℚ :=
  if x < 0 then none else some (sqrtA x)

/-- Indices selected by the mask `np.abs(w) == np.abs(w).max()` of
`G_revmap` (line 194 of `ththmod.py`). -/
def dominantIdx (w : List ℚ) : List ℕ :=
  (List.range w.length).filter fun t => qabs (w.getD t 0) = maxL (w.map qabs)

/-- Line 194 of `ththmod.py`: the Wavefield Reconstructor's screen array
`screen = np.conjugate(V[:, mask][:, 0] * np.sqrt(w[mask]))`. `w` is the
real eigenvalue array, `V` the row list of the eigenvector matrix (columns
indexed like `w`). A negative eigenvalue under `np.sqrt` gives NaN
(`none` entry); an empty `w` makes `.max()` raise, and a tie count that is
neither 1 nor the row count breaks broadcasting (`none` overall). The
remaining lines of `G_revmap` (scatter into `SS_G` and the external inverse
FFT) are not referenced by any claim. -/
def G_screen (sqrtA : ℚ → ℚ) (w : List ℚ) (V : List (List CQ)) :
    Option (List (Option CQ)) :=
  if w.length = 0 then none
  else if (dominantIdx w).length = 1 then
    some (V.map fun row =>
      (npSqrtQ sqrtA (w.getD ((dominantIdx w).headD 0) 0)).map fun s =>
        (row.getD ((dominantIdx w).headD 0) 0 * CQ.ofQ s).conj)
  else if (dominantIdx w).length = V.length then
    some ((List.range V.length).map fun r =>
      (npSqrtQ sqrtA (w.getD ((dominantIdx w).getD r 0) 0)).map fun s =>
        ((V.getD r []).getD ((dominantIdx w).headD 0) 0 * CQ.ofQ s).conj)
  else none

/-- Modelled from the spec's words for C10 (refinement comparison only):
"`screen = conj(V) · sqrt(|w|)` at the eigenvalue of largest magnitude" —
entry `i` is `conj(V[i, k]) * sqrt(|w[k]|)`, always a genuine (non-NaN)
value. -/
def G_screen_claimed (sqrtA : ℚ → ℚ) (w : List ℚ) (V : List (List CQ)) :
    Option (List (Option CQ)) :=
  if w.length = 0 then none
  else some (V.map fun row =>
    some ((row.getD ((dominantIdx w).headD 0) 0).conj *
      CQ.ofQ (sqrtA (qabs (w.getD ((dominantIdx w).headD 0) 0)))))

/-- Indices selected by the center-shift mask in the list-shaped variant
(used by `rev_map`, whose edges are data-dependent lists). -/
def selIdxL (c : List ℚ) : List ℕ :=
  (List.range c.length).filter fun i => qabs (c.getD i 0) = minAbsL c

/-- The bin-center computation of lines 124-125 of `ththmod.py`, on a
list-shaped edge array (same numpy semantics as `binCentersF`). -/
def binCentersL (edges : List ℚ) : Option (List ℚ) :=
  if (midsL edges).length = 0 then none
  else if (selIdxL (midsL edges)).length = 1 then
    some ((midsL edges).map fun x =>
      x - (midsL edges).getD ((selIdxL (midsL edges)).headD 0) 0)
  else if (selIdxL (midsL edges)).length = (midsL edges).length then
    some ((midsL edges).map fun x => x - x)
  else none

/-- The numpy histogram bin of a value: bin `b` iff
`edges[b] ≤ v < edges[b+1]`, with the last bin closed on the right;
`none` when the value falls outside every bin (the sample is dropped). -/
def binIdxH (edges : List ℚ) (v : ℚ) : Option ℕ :=
  (List.range (edges.length - 1)).find? fun b =>
    decide (edges.getD b 0 ≤ v) &&
      (decide (v < edges.getD (b + 1) 0) ||
        (decide (b = edges.length - 2) && decide (v = edges.getD (b + 1) 0)))

/-- `np.histogram2d(xs, ys, bins=(xe, ye), weights=ws)[0]`: the grid of
weighted sums. -/
def hist2dW (xs ys ws : List ℚ) (xe ye : List ℚ) : List (List ℚ) :=
  (List.range (xe.length - 1)).map fun bx =>
    (List.range (ye.length - 1)).map fun byy =>
      (((xs.zip ys).zip ws).filterMap fun p =>
        match binIdxH xe p.1.1, binIdxH ye p.1.2 with
        | some a, some b => if a = bx ∧ b = byy then some p.2 else none
        | _, _ => none).sum

/-- Elementwise sum of two rational grids. -/
def matAddL (A B : List (List ℚ)) : List (List ℚ) :=
  (List.range A.length).map fun i =>
    (List.range (A.getD i []).length).map fun j =>
      (A.getD i []).getD j 0 + (B.getD i []).getD j 0

/-- Elementwise difference of two rational grids. -/
def matSubL (A B : List (List ℚ)) : List (List ℚ) :=
  (List.range A.length).map fun i =>
    (List.range (A.getD i []).length).map fun j =>
      (A.getD i []).getD j 0 - (B.getD i []).getD j 0

/-- Transpose of a complex grid. -/
def transposeL (A : List (List CQ)) : List (List CQ) :=
  (List.range (A.getD 0 []).length).map fun j =>
    (List.range A.length).map fun i => (A.getD i []).getD j 0

/-- The Inverse Mapper `rev_map` of `ththmod.py` (lines 111-157): weighted
2D histograms of the θθ cells over the target fd/tau bin edges (real and
imaginary parts separately), optional Hermitian-conjugate fold-in of the
negated coordinates when `isdspec`, normalization by the occupancy
histogram, and final transpose. The weight divisor is the forward flux
factor; on the diagonal it is zero, where numpy produces NaN/inf entries
that `np.nan_to_num` later zeroes — the embedding uses the rational junk
convention `x/0 = 0` there, and no theorem below depends on `rev_map`'s
numeric output. Axes shorter than 2 make `fd[1]`/`tau[1]` raise
(`none`). -/
def rev_map (sqrtA : ℚ → ℚ) (thth : List (List CQ)) (tau fd : List ℚ)
    (eta : ℚ) (edges : List ℚ) (isdspec : Bool) : Option (List (List CQ)) :=
  (binCentersL edges).bind fun cs =>
    if fd.length < 2 ∨ tau.length < 2 then none
    else
      let idx := (List.range cs.length).bind fun i =>
        (List.range cs.length).map fun j => (i, j)
      let fdm := idx.map fun p => cs.getD p.2 0 - cs.getD p.1 0
      let taum := idx.map fun p => eta * ((cs.getD p.2 0) ^ 2 - (cs.getD p.1 0) ^ 2)
      let wre := idx.map fun p => ((thth.getD p.1 []).getD p.2 0).re /
        sqrtA (qabs (2 * eta * (cs.getD p.1 0 - cs.getD p.2 0)))
      let wim := idx.map fun p => ((thth.getD p.1 []).getD p.2 0).im /
        sqrtA (qabs (2 * eta * (cs.getD p.1 0 - cs.getD p.2 0)))
      let ones := idx.map fun _ => (1 : ℚ)
      let fdE := (List.range (fd.length + 1)).map fun kk =>
        ((kk : ℚ) - 1 / 2) * (fd.getD 1 0 - fd.getD 0 0) + fd.getD 0 0
      let tauE := (List.range (tau.length + 1)).map fun kk =>
        ((kk : ℚ) - 1 / 2) * (tau.getD 1 0 - tau.getD 0 0) + tau.getD 0 0
      let hre := hist2dW fdm taum wre fdE tauE
      let him := hist2dW fdm taum wim fdE tauE
      let hn := hist2dW fdm taum ones fdE tauE
      let hre2 := if isdspec then
          matAddL hre (hist2dW (fdm.map Neg.neg) (taum.map Neg.neg) wre fdE tauE)
        else hre
      let him2 := if isdspec then
          matSubL him (hist2dW (fdm.map Neg.neg) (taum.map Neg.neg) wim fdE tauE)
        else him
      let hn2 := if isdspec then
          matAddL hn (hist2dW (fdm.map Neg.neg) (taum.map Neg.neg) ones fdE tauE)
        else hn
      some (transposeL ((List.range fd.length).map fun a =>
        (List.range tau.length).map fun b =>
          CQ.mk ((hre2.getD a []).getD b 0 / (hn2.getD a []).getD b 0)
            ((him2.getD a []).getD b 0 / (hn2.getD a []).getD b 0)))

/-- Numpy truthiness of the test `axes == None` at lines 160 and 162 of
`ththmod.py`: Python `None` gives `True`; a numpy array compares
elementwise with `None` (all-False), whose truth value is its element for
a 1-element array and raises `ValueError` ("ambiguous") otherwise. -/
def npIsNone (x : Option (List ℚ)) : Except Unit Bool :=
  match x with
  | none => .ok true
  | some xs => if xs.length = 1 then .ok false else .error ()

/-- Conversion of a raising `Option` into `Except` (an uncaught exception
propagating out of a callee). -/
def exOfOpt {α : Type} (x : Option α) : Except Unit α :=
  match x with
  | none => .error ()
  | some a => .ok a

/-- External collaborators of `modeler`: `np.sqrt`, the `eigsh` dominant
eigenpair (value and vector), and the inverse FFT producing the real model
dynamic spectrum. -/
structure ModEnv where
  sqrtA : ℚ → ℚ
  eigshW : List (List CQ) → ℚ
  eigshV : List (List CQ) → List CQ
  ifftRe : List (List CQ) → List (List ℚ)

/-- The Rank-1 Modeler `modeler` of `ththmod.py` (lines 159-176): the
`fd2==None`/`tau2==None` tests, reduced map, dominant eigenpair, rank-1
reconstruction `|w| * outer(V, conj V)`, inverse map onto the chosen axes
with `isdspec = True`, and the external inverse FFT. -/
def modeler {nt nf m : ℕ} (env : ModEnv) (g : SSGrid nt nf) (eta : ℚ)
    (edges : Fin (m + 1) → ℚ) (fd2 tau2 : Option (List ℚ)) :
    Except Unit ((List (List CQ)) × (List (List CQ)) × (List (List CQ)) ×
      (List (List ℚ)) × (List ℚ) × ℚ × (List CQ)) := do
  let b1 ← npIsNone fd2
  let fd2v := if b1 then (List.finRange nf).map g.fd else fd2.getD []
  let b2 ← npIsNone tau2
  let tau2v := if b2 then (List.finRange nt).map g.tau else tau2.getD []
  let p ← exOfOpt (thth_redmap env.sqrtA g eta edges)
  let w := env.eigshW p.1
  let V := env.eigshV p.1
  let t2 := (List.range V.length).map fun i => (List.range V.length).map fun j =>
    CQ.ofQ (qabs w) * (V.getD i 0 * (V.getD j 0).conj)
  let recov ← exOfOpt (rev_map env.sqrtA t2 tau2v fd2v eta p.2 true)
  return (p.1, t2, recov, env.ifftRe recov, p.2, w, V)

/-- `chi_par` of `ththmod.py` (lines 25-29): the fitting parabola
`A*(x - x0)**2 + C`. -/
def chi_par (x A x0 C : ℚ) : ℚ := A * (x - x0) ^ 2 + C

/-- `np.linspace(lo, hi, m)`: `lo + i*(hi - lo)/(m - 1)`. -/
def linspaceL (lo hi : ℚ) (m : ℕ) : List ℚ :=
  (List.range m).map fun i => lo + (i : ℚ) * (hi - lo) / ((m : ℚ) - 1)

/-- `x.mean()` of a 1D array. -/
def meanL (l : List ℚ) : ℚ := l.sum / (l.length : ℚ)

/-- External collaborators of `single_search`: the per-candidate
`Eval_calc` evaluation (the curvature is the only varying argument inside
the sweep; SS, tau, fd and edges are fixed by the padded chunk), the
`scipy.optimize.curve_fit` call returning `popt`, `np.sqrt`, and the
combined `PlotFunc`/`savefig` plotting action. Each `Except` models that
the call may raise. -/
structure SearchEnv where
  evalCalc : ℚ → Except Unit ℚ
  curveFit : List (ℚ × ℚ) → ℚ × ℚ × ℚ → Except Unit (ℚ × ℚ × ℚ)
  sqrtA : ℚ → ℚ
  plotAct : Except Unit Unit

/-- The per-chunk parameters of `single_search` that the claims reference:
the chunk axes (for `freq2.mean()`/`time2.mean()`), the curvature range,
and the plot flag. -/
structure SearchParams where
  freq : List ℚ
  time : List ℚ
  etaLow : ℚ
  etaHigh : ℚ
  plot : Bool

/-- Line 253 of `ththmod.py`: the 100 candidate curvatures. -/
def etasOf (p : SearchParams) : List ℚ := linspaceL p.etaLow p.etaHigh 100

/-- Lines 266-271 of `ththmod.py`: the sweep. Each candidate is evaluated
inside its own `try:`; an exception records NaN (`none`) for that slot and
the loop continues with the remaining candidates. -/
def sweepEigs (env : SearchEnv) (p : SearchParams) : List (Option ℚ) :=
  (etasOf p).map fun e => (env.evalCalc e).toOption

/-- Numpy broadcasting of a binary operation against an array `ys`:
length 1 broadcasts as a scalar, equal length acts elementwise, any other
length raises. -/
def bcast2 {α : Type} (xs ys : List ℚ) (f : ℚ → ℚ → α) : Option (List α) :=
  if ys.length = 1 then some (xs.map fun x => f x (ys.headD 0))
  else if ys.length = xs.length then some (List.zipWith f xs ys)
  else none

/-- Lines 272-288 of `ththmod.py`: the peak-selection and parabola-fit
block, executed inside a single `try:`. `none` models any raise on this
path (empty maxima, broken broadcast, `curve_fit` failure); the caller
turns it into the NaN/NaN sentinel. The finite filter is the
`np.isfinite` masking; a zero denominator in the seed `A` is junk (numpy:
inf/NaN), affecting only the seed handed to the abstract `curve_fit`. -/
def fitBlock (env : SearchEnv) (p : SearchParams) : Option (ℚ × ℚ) := do
  let pairs := ((etasOf p).zip (sweepEigs env p)).filterMap fun pr =>
    pr.2.map fun v => (pr.1, v)
  if pairs.length = 0 then none
  else
    let em := maxL (pairs.map Prod.snd)
    let sel := (pairs.filter fun pr => pr.2 = em).map Prod.fst
    let mask ← bcast2 (pairs.map Prod.fst) sel fun x s => decide (qabs (x - s) < s / 10)
    let keep := (pairs.zip mask).filterMap fun z => if z.2 then some z.1 else none
    if keep.length = 0 then none
    else
      let C := maxL (keep.map Prod.snd)
      let x0 ← ((keep.filter fun z => z.2 = C).map Prod.fst).head?
      let A := if x0 = (keep.map Prod.fst).headD 0 then
          ((keep.map Prod.snd).getLastD 0 - C) /
            ((keep.map Prod.fst).getLastD 0 - x0) ^ 2
        else
          ((keep.map Prod.snd).headD 0 - C) /
            ((keep.map Prod.fst).headD 0 - x0) ^ 2
      let popt ← (env.curveFit keep (A, x0, C)).toOption
      let resid := keep.map fun z => z.2 - chi_par z.1 popt.1 popt.2.1 popt.2.2
      some (popt.2.1,
        env.sqrtA (env.sqrtA (meanL (resid.map fun r => (r - meanL resid) ^ 2)) /
          qabs popt.1))

/-- The value `single_search` hands back to the caller, plus the observable
log written by the plotting handler. NaN sentinels are `none`. -/
structure SearchResult where
  etaFit : Option ℚ
  etaSig : Option ℚ
  mFreq : ℚ
  mTime : ℚ
  log : List String

/-- `single_search` of `ththmod.py` (lines 235-301): sweep, fit block with
NaN/NaN fallback, optional plotting wrapped in its own `try:` whose
handler only prints "Plotting Error" (in the source the `PlotFunc` call
also references the undefined names `time`/`freq`, so with `plot=True` it
always raises — covered here by an arbitrary `plotAct` outcome), and the
returned tuple `(eta_fit, eta_sig, freq2.mean(), time2.mean())`. -/
def single_search (env : SearchEnv) (p : SearchParams) : SearchResult :=
  { etaFit := (fitBlock env p).map Prod.fst
    etaSig := (fitBlock env p).map Prod.snd
    mFreq := meanL p.freq
    mTime := meanL p.time
    log := if p.plot then
        match env.plotAct with
        | .ok _ => []
        | .error _ => ["Plotting Error"]
      else [] }

/-- A search environment in which every external call raises. -/
def envFail : SearchEnv :=
  ⟨fun _ => .error (), fun _ _ => .error (), ratSqrt, .error ()⟩

/-- Concrete parameters for the `single_search` witness. -/
def pTest : SearchParams := ⟨[1, 2], [3, 5], 1, 1, false⟩

@[simp] theorem CQ.zero_re : (0 : CQ).re = 0 := rfl

@[simp] theorem CQ.zero_im : (0 : CQ).im = 0 := rfl

@[simp] theorem CQ.add_re (a b : CQ) : (a + b).re = a.re + b.re := rfl

@[simp] theorem CQ.add_im (a b : CQ) : (a + b).im = a.im + b.im := rfl

@[simp] theorem CQ.sub_re (a b : CQ) : (a - b).re = a.re - b.re := rfl

@[simp] theorem CQ.sub_im (a b : CQ) : (a - b).im = a.im - b.im := rfl

@[simp] theorem CQ.conj_re (a : CQ) : a.conj.re = a.re := rfl

@[simp] theorem CQ.conj_im (a : CQ) : a.conj.im = -a.im := rfl

theorem CQ.ext' {a b : CQ} (hre : a.re = b.re) (him : a.im = b.im) : a = b := by
  cases a; cases b; simp_all

@[simp] theorem CQ.sub_self (a : CQ) : a - a = 0 := by
  apply CQ.ext' <;> simp

@[simp] theorem CQ.sub_zero (a : CQ) : a - 0 = a := by
  apply CQ.ext' <;> simp

@[simp] theorem CQ.zero_sub (a : CQ) : 0 - a = -a := by
  cases a; apply CQ.ext' <;> simp [Neg.neg]

@[simp] theorem CQ.add_zero (a : CQ) : a + 0 = a := by
  apply CQ.ext' <;> simp

@[simp] theorem CQ.zero_add (a : CQ) : 0 + a = a := by
  apply CQ.ext' <;> simp

@[simp] theorem CQ.mul_re (a b : CQ) : (a * b).re = a.re * b.re - a.im * b.im := rfl

@[simp] theorem CQ.mul_im (a b : CQ) : (a * b).im = a.re * b.im + a.im * b.re := rfl

@[simp] theorem CQ.neg_re (a : CQ) : (-a).re = -a.re := rfl

@[simp] theorem CQ.neg_im (a : CQ) : (-a).im = -a.im := rfl

theorem CQ.addComm (a b : CQ) : a + b = b + a := by
  apply CQ.ext' <;> simp <;> ring

@[simp] theorem CQ.conj_zero : (0 : CQ).conj = 0 := by
  apply CQ.ext' <;> simp

@[simp] theorem CQ.conj_conj (a : CQ) : a.conj.conj = a := by
  apply CQ.ext' <;> simp

theorem CQ.conj_add (a b : CQ) : (a + b).conj = a.conj + b.conj := by
  apply CQ.ext' <;> simp <;> ring

@[simp] theorem CQ.zero_mul (a : CQ) : (0 : CQ) * a = 0 := by
  apply CQ.ext' <;> simp

@[simp] theorem CQ.mul_zero (a : CQ) : a * (0 : CQ) = 0 := by
  apply CQ.ext' <;> simp

theorem hermStep1_eq {m : ℕ} (M : Fin m → Fin m → CQ) (i j : Fin m) :
    hermStep1 M i j = if (j : ℕ) ≤ (i : ℕ) then 0 else M i j := by
  simp only [hermStep1, matSub, trilM]
  by_cases h : (j : ℕ) ≤ (i : ℕ) <;> simp [h]

theorem triu_hermStep1 {m : ℕ} (M : Fin m → Fin m → CQ) :
    triuM (hermStep1 M) = hermStep1 M := by
  funext i j
  simp only [triuM, hermStep1_eq]
  by_cases h : (i : ℕ) ≤ (j : ℕ)
  · simp [h]
  · have hj : (j : ℕ) ≤ (i : ℕ) := by omega
    simp [h, hj]

theorem hermStep2_eq {m : ℕ} (M : Fin m → Fin m → CQ) (i j : Fin m) :
    hermStep2 M i j = hermStep1 M i j + (hermStep1 M j i).conj := by
  simp only [hermStep2, matAdd, conjT, triu_hermStep1]

theorem hermStep3_eq {m : ℕ} (M : Fin m → Fin m → CQ) (i j : Fin m) :
    hermStep3 M i j = if i = j then 0 else hermStep2 M i j := by
  simp only [hermStep3, matSub, diagP]
  by_cases h : i = j
  · subst h; simp
  · simp [h]

theorem forceHerm_eq {m : ℕ} (M : Fin m → Fin m → CQ) (i j : Fin m) :
    forceHerm M i j = if (i : ℕ) + (j : ℕ) = m - 1 then 0 else hermStep3 M i j := by
  simp only [forceHerm, matSub, adiagP]
  by_cases h : (i : ℕ) + (j : ℕ) = m - 1 <;> simp [h]

theorem forceHerm_herm {m : ℕ} (M : Fin m → Fin m → CQ) (i j : Fin m) :
    forceHerm M i j = (forceHerm M j i).conj := by
  rw [forceHerm_eq, forceHerm_eq]
  by_cases had : (i : ℕ) + (j : ℕ) = m - 1
  · have had' : (j : ℕ) + (i : ℕ) = m - 1 := by omega
    simp [had, had']
  · have had' : ¬((j : ℕ) + (i : ℕ) = m - 1) := by omega
    rw [if_neg had, if_neg had', hermStep3_eq, hermStep3_eq]
    by_cases hij : i = j
    · subst hij; simp
    · have hji : ¬(j = i) := fun hh => hij hh.symm
      rw [if_neg hij, if_neg hji, hermStep2_eq, hermStep2_eq, CQ.conj_add,
        CQ.conj_conj, CQ.addComm]

theorem forceHerm_diag {m : ℕ} (M : Fin m → Fin m → CQ) (i : Fin m) :
    forceHerm M i i = 0 := by
  rw [forceHerm_eq]
  by_cases h : (i : ℕ) + (i : ℕ) = m - 1 <;> simp [h, hermStep3_eq]

theorem forceHerm_adiag {m : ℕ} (M : Fin m → Fin m → CQ) (i j : Fin m)
    (hij : (i : ℕ) + (j : ℕ) = m - 1) : forceHerm M i j = 0 := by
  rw [forceHerm_eq, if_pos hij]

/-- C2 (confirmed): whenever the Forward Mapper `thth_map` returns a matrix
`M` (it raises on no output at all otherwise), `M` is exactly Hermitian —
`M[i,j] = conj(M[j,i])` — with zero main diagonal and zero anti-diagonal. -/
theorem thth_map_hermitian {nt nf m : ℕ} (sqrtA : ℚ → ℚ) (g : SSGrid nt nf)
    (eta : ℚ) (edges : Fin (m + 1) → ℚ) (M : Fin m → Fin m → CQ)
    (h : thth_map sqrtA g eta edges = some M) :
    (∀ i j, M i j = (M j i).conj) ∧ (∀ i, M i i = 0) ∧
      (∀ i : Fin m, M i ⟨m - 1 - (i : ℕ), by have := i.isLt; omega⟩ = 0) := by
  have hM : ∃ X, M = forceHerm X := by
    rw [thth_map, Option.bind_eq_some] at h
    obtain ⟨c, hc, h2⟩ := h
    rw [Option.map_eq_some'] at h2
    obtain ⟨F, hF, h3⟩ := h2
    exact ⟨scaleM sqrtA eta c F, h3.symm⟩
  obtain ⟨X, rfl⟩ := hM
  refine ⟨forceHerm_herm X, forceHerm_diag X, fun i => forceHerm_adiag X i _ ?_⟩
  have := i.isLt
  show (i : ℕ) + (m - 1 - (i : ℕ)) = m - 1
  omega

theorem binCentersF_eq_one {n : ℕ} (e : Fin (n + 1) → ℚ) (hn : 0 < n)
    (h1 : (selIdx e).length = 1) :
    binCentersF e =
      some fun j => centersRaw e j - centersRaw e ((selIdx e).headD ⟨0, hn⟩) := by
  rw [binCentersF, dif_pos hn, if_pos h1]

theorem ththFillOpt_eq_of {nt nf m : ℕ} (g : SSGrid nt nf) (eta : ℚ)
    (c : Fin m → ℚ) (h : fillOk g eta c = true) :
    ththFillOpt g eta c = some fun i j => (entryOptG g eta c i j).getD 0 := by
  rw [ththFillOpt, if_pos h]

theorem thth_map_eq_of {nt nf m : ℕ} (sqrtA : ℚ → ℚ) (g : SSGrid nt nf)
    (eta : ℚ) (edges : Fin (m + 1) → ℚ) (c : Fin m → ℚ) (F : Fin m → Fin m → CQ)
    (hc : binCentersF edges = some c) (hf : ththFillOpt g eta c = some F) :
    thth_map sqrtA g eta edges = some (forceHerm (scaleM sqrtA eta c F)) := by
  rw [thth_map, hc]
  show (ththFillOpt g eta c).map _ = _
  rw [hf]
  rfl

theorem cCent_eq : binCentersF cEdges = some cCent := by
  rw [binCentersF_eq_one cEdges (by norm_num) (by with_unfolding_all decide)]
  refine congrArg some ?_
  funext j
  fin_cases j <;> with_unfolding_all decide

theorem cM_eq : thth_map ratSqrt cGrid cEta cEdges = some cM := by
  rw [thth_map_eq_of ratSqrt cGrid cEta cEdges cCent _ cCent_eq
    (ththFillOpt_eq_of cGrid cEta cCent (by with_unfolding_all decide))]
  refine congrArg some ?_
  funext i j
  fin_cases i <;> fin_cases j <;> with_unfolding_all decide

/-- Witness for C2: a concrete run of `thth_map` on which the hypothesis of
`thth_map_hermitian` is discharged by evaluation. -/
theorem thth_map_hermitian_w :
    thth_map ratSqrt cGrid cEta cEdges = some cM ∧
      ((∀ i j, cM i j = (cM j i).conj) ∧ (∀ i, cM i i = 0) ∧
        (∀ i : Fin 3, cM i ⟨3 - 1 - (i : ℕ), by have := i.isLt; omega⟩ = 0)) :=
  ⟨cM_eq, thth_map_hermitian ratSqrt cGrid cEta cEdges cM cM_eq⟩

theorem popF_eq_true_iff {nt nf : ℕ} {ti fi : ℤ} :
    popF nt nf ti fi = true ↔ 0 < ti ∧ ti < (nt : ℤ) ∧ fi < (nf : ℤ) := by
  simp [popF, Bool.and_eq_true, decide_eq_true_eq, and_assoc]

theorem npIdx_isSome_of {n : ℕ} {i : ℤ} (hn : 0 < n) (h0 : -(n : ℤ) ≤ i)
    (h1 : i < (n : ℤ)) : (npIdx n i).isSome := by
  rw [npIdx, dif_pos ⟨hn, h0, h1⟩]
  rfl

/-- C1 (corrected): characterization of the Forward Mapper's fill step. A
θθ cell is filled exactly when `0 < tau_inv < len(tau)` and
`fd_inv < len(fd)` (no fd lower bound); filled cells read the secondary
spectrum at the (possibly wrapped) numpy index, all other cells are zero,
and — under the hypothesis `hsafe` that no selected fd index lies below
`-len(fd)` — no `IndexError` is raised and the Forward Mapper returns the
symmetrized scaled fill. (The original claim's "no error is raised" is
refuted by `thth_map_oob_raises`.) -/
theorem thth_map_fill_char {nt nf m : ℕ} (sqrtA : ℚ → ℚ) (g : SSGrid nt nf)
    (eta : ℚ) (edges : Fin (m + 1) → ℚ) (c : Fin m → ℚ)
    (hc : binCentersF edges = some c)
    (hsafe : ∀ i j : Fin m,
      popF nt nf (tauInvG g eta c i j) (fdInvG g c i j) = true →
      -(nf : ℤ) ≤ fdInvG g c i j) :
    ∃ F, ththFillOpt g eta c = some F ∧
      (∀ i j, popF nt nf (tauInvG g eta c i j) (fdInvG g c i j) = false →
        F i j = 0) ∧
      (∀ i j, popF nt nf (tauInvG g eta c i j) (fdInvG g c i j) = true →
        F i j = SSwrap g.SS (tauInvG g eta c i j) (fdInvG g c i j)) ∧
      thth_map sqrtA g eta edges = some (forceHerm (scaleM sqrtA eta c F)) := by
  have hsome : ∀ i j : Fin m, (entryOptG g eta c i j).isSome := by
    intro i j
    rw [entryOptG]
    by_cases hp : popF nt nf (tauInvG g eta c i j) (fdInvG g c i j) = true
    · rw [if_pos hp]
      obtain ⟨h1, h2, h3⟩ := popF_eq_true_iff.mp hp
      have hnt : 0 < nt := by omega
      have h4 := hsafe i j hp
      have hnf : 0 < nf := by omega
      obtain ⟨a, ha⟩ := Option.isSome_iff_exists.mp (npIdx_isSome_of hnt (by omega) h2)
      obtain ⟨b, hb⟩ := Option.isSome_iff_exists.mp (npIdx_isSome_of hnf h4 h3)
      rw [ha, hb]
      rfl
    · rw [if_neg hp]
      rfl
  have hok : fillOk g eta c = true := by
    rw [fillOk]
    exact List.all_eq_true.mpr fun i _ =>
      List.all_eq_true.mpr fun j _ => hsome i j
  refine ⟨_, ththFillOpt_eq_of g eta c hok, fun i j hp => ?_, fun i j hp => ?_,
    thth_map_eq_of sqrtA g eta edges c _ hc (ththFillOpt_eq_of g eta c hok)⟩
  · show (entryOptG g eta c i j).getD 0 = 0
    rw [entryOptG, if_neg (by simp [hp])]
    rfl
  · show (entryOptG g eta c i j).getD 0 = _
    rw [entryOptG, if_pos hp, SSwrap]

set_option maxRecDepth 100000 in
set_option maxHeartbeats 1000000 in
/-- Counterexample for C1: a secondary spectrum whose Doppler axis is much
narrower than the theta-bin range. Lower-triangle cells pass the fill mask
(`0 < tau_inv < 4`, `fd_inv < 4`) with `fd_inv = -18 < -len(fd)`, so the
lookup `SS[tau_inv[pnts], fd_inv[pnts]]` raises `IndexError`, refuting "no
error is raised for out-of-range coordinates". -/
theorem thth_map_oob_raises : thth_map ratSqrt xGrid xEta xEdges = none := by
  with_unfolding_all decide

set_option maxRecDepth 100000 in
set_option maxHeartbeats 1000000 in
/-- Witness for C1: the amended fill characterization applied to a concrete
in-range input, with both hypotheses discharged by evaluation. -/
theorem thth_map_fill_char_w :
    ∃ F, ththFillOpt cGrid cEta cCent = some F ∧
      (∀ i j, popF 4 8 (tauInvG cGrid cEta cCent i j) (fdInvG cGrid cCent i j) = false →
        F i j = 0) ∧
      (∀ i j, popF 4 8 (tauInvG cGrid cEta cCent i j) (fdInvG cGrid cCent i j) = true →
        F i j = SSwrap cGrid.SS (tauInvG cGrid cEta cCent i j) (fdInvG cGrid cCent i j)) ∧
      thth_map ratSqrt cGrid cEta cEdges = some (forceHerm (scaleM ratSqrt cEta cCent F)) :=
  thth_map_fill_char ratSqrt cGrid cEta cEdges cCent cCent_eq
    (by with_unfolding_all decide)

theorem keepCond_eq_true_iff {eta A B x : ℚ} :
    keepCond eta A B x = true ↔ x ^ 2 * eta < A ∧ qabs x < B / 2 := by
  simp [keepCond]

theorem mem_keepIdx_iff {nt nf m : ℕ} {g : SSGrid nt nf} {eta : ℚ}
    {c : Fin m → ℚ} {i : Fin m} :
    i ∈ keepIdx g eta c ↔
      (c i) ^ 2 * eta < qabs (maxF g.tau) ∧ qabs (c i) < qabs (maxF g.fd) / 2 := by
  rw [keepIdx, List.mem_filter]
  simp [List.mem_finRange, keepCond_eq_true_iff]

theorem thth_redmap_eq_of {nt nf m : ℕ} (sqrtA : ℚ → ℚ) (g : SSGrid nt nf)
    (eta : ℚ) (edges : Fin (m + 1) → ℚ) (M : Fin m → Fin m → CQ) (c : Fin m → ℚ)
    (hm : thth_map sqrtA g eta edges = some M) (hc : binCentersF edges = some c)
    (hk : ¬((keepIdx g eta c).length ≤ 1)) :
    thth_redmap sqrtA g eta edges =
      some ((keepIdx g eta c).map fun i => (keepIdx g eta c).map fun j => M i j,
        ((midsL ((keepIdx g eta c).map c)).headD 0 -
            meanDiffL (midsL ((keepIdx g eta c).map c))) ::
          (midsL ((keepIdx g eta c).map c) ++
            [(midsL ((keepIdx g eta c).map c)).getLastD 0 +
              meanDiffL (midsL ((keepIdx g eta c).map c))])) := by
  rw [thth_redmap, hm]
  show (binCentersF edges).bind _ = _
  rw [hc]
  show (if (keepIdx g eta c).length ≤ 1 then none else _) = _
  rw [if_neg hk]

/-- C5 (confirmed): every bin center retained by the Reduced-Domain
Selector satisfies `eta*theta^2 < |tau_max|` and `|theta| < |fd_max|/2`,
every center satisfying both conditions is retained, and the reduced θθ
matrix is square with both dimensions equal to the retained count. -/
theorem thth_redmap_containment {nt nf m : ℕ} (sqrtA : ℚ → ℚ)
    (g : SSGrid nt nf) (eta : ℚ) (edges : Fin (m + 1) → ℚ) (c : Fin m → ℚ)
    (R : List (List CQ)) (er : List ℚ)
    (hc : binCentersF edges = some c)
    (h : thth_redmap sqrtA g eta edges = some (R, er)) :
    (∀ i ∈ keepIdx g eta c,
      (c i) ^ 2 * eta < qabs (maxF g.tau) ∧ qabs (c i) < qabs (maxF g.fd) / 2) ∧
    (∀ i : Fin m, (c i) ^ 2 * eta < qabs (maxF g.tau) →
      qabs (c i) < qabs (maxF g.fd) / 2 → i ∈ keepIdx g eta c) ∧
    R.length = (keepIdx g eta c).length ∧
    (∀ row ∈ R, row.length = (keepIdx g eta c).length) := by
  refine ⟨fun i hi => mem_keepIdx_iff.mp hi,
    fun i h1 h2 => mem_keepIdx_iff.mpr ⟨h1, h2⟩, ?_⟩
  rw [thth_redmap, Option.bind_eq_some] at h
  obtain ⟨M, hM, h2⟩ := h
  rw [hc] at h2
  rw [Option.bind_eq_some] at h2
  obtain ⟨c2, hc2, h3⟩ := h2
  injection hc2 with hcc
  subst hcc
  by_cases hk : (keepIdx g eta c).length ≤ 1
  · rw [if_pos hk] at h3
    exact absurd h3 (by simp)
  · rw [if_neg hk] at h3
    have h4 := Option.some.inj h3
    have hR : ((keepIdx g eta c).map fun i => (keepIdx g eta c).map fun j => M i j) = R :=
      congrArg Prod.fst h4
    constructor
    · rw [← hR, List.length_map]
    · intro row hrow
      rw [← hR] at hrow
      obtain ⟨i, _, hrow2⟩ := List.mem_map.mp hrow
      rw [← hrow2, List.length_map]

set_option maxRecDepth 100000 in
set_option maxHeartbeats 1000000 in
theorem cRed_eq : thth_redmap ratSqrt cGrid cEta cEdges = some (cRed, cEdgesRed) := by
  rw [thth_redmap_eq_of ratSqrt cGrid cEta cEdges cM cCent cM_eq cCent_eq
    (by with_unfolding_all decide)]
  with_unfolding_all decide

set_option maxRecDepth 100000 in
set_option maxHeartbeats 1000000 in
/-- Witness for C5: the containment statement on a concrete reduced map,
hypotheses discharged by evaluation. -/
theorem thth_redmap_containment_w :
    (∀ i ∈ keepIdx cGrid cEta cCent,
      (cCent i) ^ 2 * cEta < qabs (maxF cGrid.tau) ∧
        qabs (cCent i) < qabs (maxF cGrid.fd) / 2) ∧
    (∀ i : Fin 3, (cCent i) ^ 2 * cEta < qabs (maxF cGrid.tau) →
      qabs (cCent i) < qabs (maxF cGrid.fd) / 2 → i ∈ keepIdx cGrid cEta cCent) ∧
    cRed.length = (keepIdx cGrid cEta cCent).length ∧
    (∀ row ∈ cRed, row.length = (keepIdx cGrid cEta cCent).length) :=
  thth_redmap_containment ratSqrt cGrid cEta cEdges cCent cRed cEdgesRed
    cCent_eq cRed_eq

set_option maxRecDepth 100000 in
set_option maxHeartbeats 1000000 in
/-- C4 (code_bug): at a concrete input, the matrix that `Eval_calc`
actually hands to the Hermitian eigensolver (`evalPrepMatrix`, with its
central row rescaled in place through the numpy view `v0`) differs from the
Reduced-Domain Selector's matrix and is no longer Hermitian, although the
selector's matrix is. The claim — that the recorded value is the dominant
eigenvalue magnitude of the selector's reduced matrix — describes the
intended computation; the in-place `v0 /= np.sqrt(...)` at line 187 is the
slip. -/
theorem eval_calc_mutates_matrix :
    thth_redmap ratSqrt cGrid cEta cEdges = some (cRed, cEdgesRed) ∧
      evalPrepMatrix ratSqrt cRed ≠ cRed ∧
      isHermL cRed = true ∧ isHermL (evalPrepMatrix ratSqrt cRed) = false :=
  ⟨cRed_eq, by with_unfolding_all decide, by with_unfolding_all decide,
    by with_unfolding_all decide⟩

theorem qabs_nonneg (a : ℚ) : 0 ≤ qabs a := by
  rw [qabs]
  by_cases h : a < 0 <;> simp [h] <;> linarith

theorem qabs_eq_zero_iff {a : ℚ} : qabs a = 0 ↔ a = 0 := by
  rw [qabs]
  by_cases h : a < 0
  · rw [if_pos h]
    constructor
    · intro hh; linarith
    · intro hh; linarith
  · rw [if_neg h]

theorem qmin_cases (a b : ℚ) : qmin a b = a ∨ qmin a b = b := by
  rw [qmin]
  by_cases h : a ≤ b <;> simp [h]

theorem qmin_le_left (a b : ℚ) : qmin a b ≤ a := by
  rw [qmin]
  by_cases h : a ≤ b <;> simp [h]
  linarith

theorem qmin_le_right (a b : ℚ) : qmin a b ≤ b := by
  rw [qmin]
  by_cases h : a ≤ b <;> simp [h]

theorem foldl_qmin_mem (l : List ℚ) (a : ℚ) :
    l.foldl qmin a = a ∨ l.foldl qmin a ∈ l := by
  induction l generalizing a with
  | nil => left; rfl
  | cons b bs ih =>
    rw [List.foldl_cons]
    rcases ih (qmin a b) with h | h
    · rcases qmin_cases a b with h2 | h2
      · left; rw [h, h2]
      · right; rw [h, h2]; exact List.mem_cons_self b bs
    · right; exact List.mem_cons_of_mem b h

theorem foldl_qmin_le_init (l : List ℚ) (a : ℚ) : l.foldl qmin a ≤ a := by
  induction l generalizing a with
  | nil => exact le_refl a
  | cons b bs ih =>
    rw [List.foldl_cons]
    exact le_trans (ih (qmin a b)) (qmin_le_left a b)

theorem foldl_qmin_le_mem (l : List ℚ) (a x : ℚ) (hx : x ∈ l) :
    l.foldl qmin a ≤ x := by
  induction l generalizing a with
  | nil => cases hx
  | cons b bs ih =>
    rw [List.foldl_cons]
    rcases List.mem_cons.mp hx with rfl | h
    · exact le_trans (foldl_qmin_le_init bs (qmin a x)) (qmin_le_right a x)
    · exact ih (qmin a b) h

theorem qabs_zero : qabs 0 = 0 := by
  rw [qabs]
  norm_num

theorem minAbsL_eq_zero {l : List ℚ} (h0 : (0 : ℚ) ∈ l) : minAbsL l = 0 := by
  rw [minAbsL]
  cases hm : l.map qabs with
  | nil => rfl
  | cons a as =>
    have hmem0 : (0 : ℚ) ∈ a :: as := by
      rw [← hm]
      exact List.mem_map.mpr ⟨0, h0, qabs_zero⟩
    have hub : ∀ x ∈ a :: as, (0 : ℚ) ≤ x := by
      intro x hx
      rw [← hm] at hx
      obtain ⟨y, _, rfl⟩ := List.mem_map.mp hx
      exact qabs_nonneg y
    have h1 : as.foldl qmin a ≤ 0 := by
      rcases List.mem_cons.mp hmem0 with h | h
      · exact h ▸ foldl_qmin_le_init as a
      · exact foldl_qmin_le_mem as a 0 h
    have h2 : 0 ≤ as.foldl qmin a := by
      rcases foldl_qmin_mem as a with h | h
      · rw [h]; exact hub a (List.mem_cons_self a as)
      · exact hub _ (List.mem_cons_of_mem a h)
    show as.foldl qmin a = 0
    linarith

theorem filter_none {α : Type} (bs : List α) (p : α → Bool)
    (h : ∀ x ∈ bs, p x = false) : bs.filter p = [] := by
  induction bs with
  | nil => rfl
  | cons b l ih =>
    rw [List.filter_cons, if_neg (by simp [h b (List.mem_cons_self b l)])]
    exact ih fun x hx => h x (List.mem_cons_of_mem _ hx)

theorem filter_unique {α : Type} (l : List α) (p : α → Bool) (a : α)
    (hnd : l.Nodup) (ha : a ∈ l) (hp : ∀ x ∈ l, p x = true ↔ x = a) :
    l.filter p = [a] := by
  induction l with
  | nil => cases ha
  | cons b bs ih =>
    obtain ⟨hbn, hbs⟩ := List.nodup_cons.mp hnd
    rw [List.filter_cons]
    rcases List.mem_cons.mp ha with heq | hmem
    · subst heq
      rw [if_pos (by simp [(hp a (List.mem_cons_self a bs)).mpr rfl])]
      have hnil : bs.filter p = [] := by
        apply filter_none
        intro x hx
        by_cases hpx : p x = true
        · have := (hp x (List.mem_cons_of_mem _ hx)).mp hpx
          subst this
          exact absurd hx hbn
        · simpa using hpx
      rw [hnil]
    · have hba : b ≠ a := fun hh => hbn (hh ▸ hmem)
      have hpb : ¬(p b = true) := fun hh => hba ((hp b (List.mem_cons_self b bs)).mp hh)
      rw [if_neg (by simpa using hpb)]
      exact ih hbs hmem fun x hx => hp x (List.mem_cons_of_mem _ hx)

/-- C7 (corrected, amended): for a strictly ascending edge array that is
symmetric about zero and has an even number of edges (`2*k + 2` of them),
the bin centers computed by `binCentersF` are antisymmetric about zero and
the middle center is exactly zero. (For symmetric edge arrays with an odd
number of at least five edges the two centers nearest zero tie in absolute
value and the broadcast subtraction raises, see
`bin_centers_tie_raises`.) -/
theorem bin_centers_antisym (k : ℕ) (e : Fin (2 * k + 1 + 1) → ℚ)
    (hsym : ∀ (a : ℕ) (h : a < 2 * k + 2), e ⟨a, h⟩ = -e ⟨2 * k + 1 - a, by omega⟩)
    (hmono : ∀ (a b : ℕ) (ha : a < 2 * k + 2) (hb : b < 2 * k + 2), a < b →
      e ⟨a, ha⟩ < e ⟨b, hb⟩) :
    ∃ c, binCentersF e = some c ∧
      (∀ i : Fin (2 * k + 1), c ⟨2 * k - (i : ℕ), by omega⟩ = -c i) ∧
      c ⟨k, by omega⟩ = 0 := by
  have hc0 : ∀ (a : ℕ) (h : a < 2 * k + 1),
      centersRaw e ⟨a, h⟩ = (e ⟨a, by omega⟩ + e ⟨a + 1, by omega⟩) / 2 :=
    fun a h => rfl
  have hmid : centersRaw e ⟨k, by omega⟩ = 0 := by
    rw [hc0 k (by omega)]
    have h1 := hsym k (by omega)
    have he : (⟨2 * k + 1 - k, by omega⟩ : Fin (2 * k + 1 + 1)) = ⟨k + 1, by omega⟩ :=
      Fin.ext (by simp only []; omega)
    rw [he] at h1
    rw [h1]
    ring
  have hanti : ∀ (a : ℕ) (h : a < 2 * k + 1),
      centersRaw e ⟨2 * k - a, by omega⟩ = -centersRaw e ⟨a, h⟩ := by
    intro a h
    have h1 : e ⟨2 * k - a, by omega⟩ = -e ⟨a + 1, by omega⟩ := by
      have hs := hsym (a + 1) (by omega)
      have he : (⟨2 * k + 1 - (a + 1), by omega⟩ : Fin (2 * k + 1 + 1)) =
          ⟨2 * k - a, by omega⟩ := Fin.ext (by simp only []; omega)
      rw [he] at hs
      linarith [hs]
    have h2 : e ⟨2 * k - a + 1, by omega⟩ = -e ⟨a, by omega⟩ := by
      have hs := hsym a (by omega)
      have he : (⟨2 * k + 1 - a, by omega⟩ : Fin (2 * k + 1 + 1)) =
          ⟨2 * k - a + 1, by omega⟩ := Fin.ext (by simp only []; omega)
      rw [he] at hs
      linarith [hs]
    rw [hc0 (2 * k - a) (by omega), hc0 a h, h1, h2]
    ring
  have hsm : ∀ (a b : ℕ) (ha : a < 2 * k + 1) (hb : b < 2 * k + 1), a < b →
      centersRaw e ⟨a, ha⟩ < centersRaw e ⟨b, hb⟩ := by
    intro a b ha hb hab
    rw [hc0 a ha, hc0 b hb]
    have l1 := hmono a b (by omega) (by omega) hab
    have l2 := hmono (a + 1) (b + 1) (by omega) (by omega) (by omega)
    linarith
  have huniq : ∀ (a : ℕ) (h : a < 2 * k + 1), centersRaw e ⟨a, h⟩ = 0 → a = k := by
    intro a h h0
    rcases lt_trichotomy a k with hlt | heq | hgt
    · have := hsm a k h (by omega) hlt
      rw [h0, hmid] at this
      exact absurd this (lt_irrefl 0)
    · exact heq
    · have := hsm k a (by omega) h hgt
      rw [h0, hmid] at this
      exact absurd this (lt_irrefl 0)
  have h0mem : (0 : ℚ) ∈ centersList e := by
    rw [centersList]
    exact List.mem_map.mpr ⟨⟨k, by omega⟩, List.mem_finRange _, hmid⟩
  have hmin : centersMinAbs e = 0 := by
    rw [centersMinAbs]
    exact minAbsL_eq_zero h0mem
  have hsel : selIdx e = [⟨k, by omega⟩] := by
    rw [selIdx]
    apply filter_unique _ _ _ (List.nodup_finRange _) (List.mem_finRange _)
    intro x _
    rw [decide_eq_true_eq, hmin]
    constructor
    · intro hpx
      have hx0 : centersRaw e x = 0 := qabs_eq_zero_iff.mp hpx
      exact Fin.ext (huniq x.val x.isLt (by
        have : (⟨x.val, x.isLt⟩ : Fin (2 * k + 1)) = x := Fin.ext rfl
        rw [this]
        exact hx0))
    · intro hx
      subst hx
      rw [hmid, qabs_zero]
  have hhead : (selIdx e).headD ⟨0, by omega⟩ = ⟨k, by omega⟩ := by
    rw [hsel]
    rfl
  have hlen : (selIdx e).length = 1 := by rw [hsel]; rfl
  refine ⟨_, binCentersF_eq_one e (by omega) hlen, fun i => ?_, ?_⟩
  · show centersRaw e ⟨2 * k - (i : ℕ), by omega⟩ -
        centersRaw e ((selIdx e).headD ⟨0, by omega⟩) =
      -(centersRaw e i - centersRaw e ((selIdx e).headD ⟨0, by omega⟩))
    rw [hhead, hmid]
    have hi : centersRaw e i = centersRaw e ⟨(i : ℕ), i.isLt⟩ := rfl
    rw [hi, hanti (i : ℕ) i.isLt]
    ring
  · show centersRaw e ⟨k, by omega⟩ -
        centersRaw e ((selIdx e).headD ⟨0, by omega⟩) = 0
    rw [hhead, hmid]
    ring

/-- Counterexample for C7: the symmetric ascending 5-edge array
`[-2, -1, 0, 1, 2]` produces centers `[-3/2, -1/2, 1/2, 3/2]`; the two
centers nearest zero tie in absolute value, the boolean mask selects two
elements, and the broadcast subtraction `th_cents -= th_cents[mask]` raises
a `ValueError`, so no antisymmetric output exists. -/
theorem bin_centers_tie_raises :
    binCentersF (n := 4) ![-2, -1, 0, 1, 2] = none := by
  with_unfolding_all decide

theorem cEdges_sym :
    ∀ i : Fin (2 * 1 + 2), cEdges i = -cEdges ⟨2 * 1 + 1 - (i : ℕ), by omega⟩ := by
  with_unfolding_all decide

theorem cEdges_mono :
    ∀ i j : Fin (2 * 1 + 2), (i : ℕ) < (j : ℕ) → cEdges i < cEdges j := by
  with_unfolding_all decide

set_option maxRecDepth 10000 in
/-- Witness for C7: the amended statement applied to the concrete symmetric
edges `[-3, -1, 1, 3]`, hypotheses discharged by evaluation. -/
theorem bin_centers_antisym_w :
    ∃ c, binCentersF cEdges = some c ∧
      (∀ i : Fin 3, c ⟨2 - (i : ℕ), by omega⟩ = -c i) ∧
      c ⟨1, by omega⟩ = 0 :=
  bin_centers_antisym 1 cEdges
    (fun a h => cEdges_sym ⟨a, h⟩)
    (fun a b ha hb hab => cEdges_mono ⟨a, ha⟩ ⟨b, hb⟩ hab)

theorem mirror_reverse_neg (xs : List ℚ) (s : ℚ) :
    ((((xs.reverse.map fun t => -t) ++ xs).map fun t => t * s).reverse.map
        fun t => -t) =
      ((xs.reverse.map fun t => -t) ++ xs).map fun t => t * s := by
  have hf1 : ((fun t : ℚ => -t) ∘ fun t : ℚ => t * s) =
      ((fun t : ℚ => t * s) ∘ fun t : ℚ => -t) := by
    funext t
    show -(t * s) = -t * s
    ring
  have hf2 : ((fun t : ℚ => -t) ∘ ((fun t : ℚ => t * s) ∘ fun t : ℚ => -t)) =
      fun t : ℚ => t * s := by
    funext t
    show -(-t * s) = t * s
    ring
  simp only [List.map_append, List.reverse_append, List.map_reverse,
    List.reverse_reverse, List.map_map]
  rw [hf1, hf2]

/-- C8 (corrected, amended): for every model of the external sqrt/arcsinh
and all parameters, `arc_edges` returns `2*(n//2)` edges — equal to `n`
exactly when `n` is even (for odd `n` it returns `n - 1` edges, see
`arc_edges_odd_length`) — and the edge array is symmetric about zero:
reversing and negating it yields the same array. -/
theorem arc_edges_even_sym (sqrtA asinhA : ℚ → ℚ) (eta dfd dtau fdMax : ℚ)
    (n : ℕ) (_hn : 2 ≤ n) (he : n % 2 = 0) :
    (arc_edges sqrtA asinhA eta dfd dtau fdMax n).length = n ∧
      ((arc_edges sqrtA asinhA eta dfd dtau fdMax n).reverse.map fun t => -t) =
        arc_edges sqrtA asinhA eta dfd dtau fdMax n := by
  constructor
  · rw [arc_edges]
    simp only [List.length_map, List.length_append, List.length_reverse,
      List.length_range]
    omega
  · rw [arc_edges]
    exact mirror_reverse_neg _ dfd

/-- Counterexample for C8: with `n = 3` (and any positive curvature and
steps; the length is independent of the sqrt/arcsinh model), `arc_edges`
returns `2*(3//2) = 2` edges, not 3. -/
theorem arc_edges_odd_length :
    (arc_edges ratSqrt id 1 1 1 1 3).length = 2 ∧
      (arc_edges ratSqrt id 1 1 1 1 3).length ≠ 3 := by
  constructor <;> with_unfolding_all decide

/-- Witness for C8: the amended statement at the concrete even bin count
`n = 4`, hypotheses discharged by evaluation. -/
theorem arc_edges_even_sym_w :
    (arc_edges ratSqrt id 1 1 1 1 4).length = 4 ∧
      ((arc_edges ratSqrt id 1 1 1 1 4).reverse.map fun t => -t) =
        arc_edges ratSqrt id 1 1 1 1 4 :=
  arc_edges_even_sym ratSqrt id 1 1 1 1 4 (by norm_num) (by norm_num)

theorem qabs_of_nonneg {a : ℚ} (h : 0 ≤ a) : qabs a = a := by
  rw [qabs, if_neg (not_lt.mpr h)]

theorem CQ.conj_mul_ofQ (z : CQ) (r : ℚ) :
    (z * CQ.ofQ r).conj = z.conj * CQ.ofQ r := by
  apply CQ.ext' <;> simp [CQ.ofQ]

/-- C10 (corrected, amended): whenever the dominant eigenvalue is unique
and nonnegative, the screen array of the Wavefield Reconstructor agrees
with the spec's `conj(V_k) * sqrt(|w_k|)` formula; for a negative dominant
eigenvalue the code instead takes `sqrt(w_k)` of a negative number and the
screen is NaN (see `g_screen_nan_cex`). -/
theorem g_screen_nonneg_eq (sqrtA : ℚ → ℚ) (w : List ℚ) (V : List (List CQ))
    (hw : ¬(w.length = 0)) (hks : (dominantIdx w).length = 1)
    (hnn : 0 ≤ w.getD ((dominantIdx w).headD 0) 0) :
    G_screen sqrtA w V = G_screen_claimed sqrtA w V := by
  rw [G_screen, G_screen_claimed, if_neg hw, if_neg hw, if_pos hks]
  refine congrArg some (List.map_congr_left fun row _ => ?_)
  rw [npSqrtQ, if_neg (not_lt.mpr hnn), Option.map_some', qabs_of_nonneg hnn,
    CQ.conj_mul_ofQ]

/-- Counterexample for C10: with the single (hence dominant) eigenvalue
`w = [-4]` and eigenvector `V = [[1]]`, the code computes
`conj(1 * sqrt(-4))`, which is NaN, while the claimed formula
`conj(V_k) * sqrt(|w_k|)` is the genuine value `2`. -/
theorem g_screen_nan_cex :
    G_screen ratSqrt [-4] [[⟨1, 0⟩]] = some [none] ∧
      G_screen_claimed ratSqrt [-4] [[⟨1, 0⟩]] = some [some ⟨2, 0⟩] ∧
      G_screen ratSqrt [-4] [[⟨1, 0⟩]] ≠ G_screen_claimed ratSqrt [-4] [[⟨1, 0⟩]] := by
  refine ⟨?_, ?_, ?_⟩ <;> with_unfolding_all decide

/-- Witness for C10: the amended agreement at the concrete nonnegative
dominant eigenvalue `w = [4]`, hypotheses discharged by evaluation. -/
theorem g_screen_nonneg_eq_w :
    G_screen ratSqrt [4] [[⟨1, 0⟩]] = G_screen_claimed ratSqrt [4] [[⟨1, 0⟩]] :=
  g_screen_nonneg_eq ratSqrt [4] [[⟨1, 0⟩]]
    (by with_unfolding_all decide) (by with_unfolding_all decide)
    (by with_unfolding_all decide)

/-- C9 (code_bug): with a 2-element alternate Doppler axis supplied,
`modeler` raises the ambiguous-truth `ValueError` at `if fd2==None:`
instead of inverse-mapping onto the supplied axes; the claim describes the
evident intent of the `fd2`/`tau2` parameters (the test should be
`fd2 is None`). -/
theorem modeler_alt_axes_raises :
    modeler ⟨ratSqrt, fun _ => 0, fun _ => [], fun _ => []⟩ cGrid cEta cEdges
      (some [0, 1]) none = .error () := rfl

/-- C3 (confirmed): `single_search` always returns the well-typed
4-tuple — the embedding's total return type mirrors that no exception
escapes the function body —, every sweep slot depends only on its own
candidate evaluation (an exception there yields NaN for that slot and the
sweep continues over the others), and any failure of the peak-selection or
parabola-fit path yields the NaN/NaN sentinel while the chunk's mean
frequency and mean time are still returned. -/
theorem single_search_robust (env : SearchEnv) (p : SearchParams) :
    (single_search env p).mFreq = meanL p.freq ∧
    (single_search env p).mTime = meanL p.time ∧
    (∀ i : ℕ, (sweepEigs env p).get? i =
      ((etasOf p).get? i).map fun e => (env.evalCalc e).toOption) ∧
    (fitBlock env p = none →
      (single_search env p).etaFit = none ∧ (single_search env p).etaSig = none) ∧
    (∀ e s, fitBlock env p = some (e, s) →
      (single_search env p).etaFit = some e ∧
        (single_search env p).etaSig = some s) := by
  refine ⟨rfl, rfl, fun i => ?_, fun h => ?_, fun e s h => ?_⟩
  · rw [sweepEigs, List.get?_map]
  · constructor <;> simp [single_search, h]
  · constructor <;> simp [single_search, h]

set_option maxRecDepth 100000 in
set_option maxHeartbeats 2000000 in
/-- Witness for C3: when every candidate evaluation raises, the whole fit
path fails and `single_search` still returns the NaN/NaN sentinel together
with the chunk means. -/
theorem single_search_robust_w :
    (single_search envFail pTest).etaFit = none ∧
      (single_search envFail pTest).etaSig = none ∧
      (single_search envFail pTest).mFreq = 3 / 2 ∧
      (single_search envFail pTest).mTime = 4 := by
  have h := single_search_robust envFail pTest
  have hf : fitBlock envFail pTest = none := by with_unfolding_all decide
  exact ⟨(h.2.2.2.1 hf).1, (h.2.2.2.1 hf).2,
    h.1.trans (by with_unfolding_all decide),
    h.2.1.trans (by with_unfolding_all decide)⟩

/-- C6 (confirmed): the numeric quadruple returned by `single_search` is
identical with `plot := true` and with `plot := false` on the same inputs,
for every outcome of the plotting action: a plotting exception is caught,
only logged, and never alters or suppresses the returned
`(eta_fit, eta_sigma, mean frequency, mean time)`. -/
theorem single_search_plot_indep (env : SearchEnv) (pa1 pa2 : Except Unit Unit)
    (p : SearchParams) :
    ((single_search { env with plotAct := pa1 } { p with plot := true }).etaFit,
      (single_search { env with plotAct := pa1 } { p with plot := true }).etaSig,
      (single_search { env with plotAct := pa1 } { p with plot := true }).mFreq,
      (single_search { env with plotAct := pa1 } { p with plot := true }).mTime) =
    ((single_search { env with plotAct := pa2 } { p with plot := false }).etaFit,
      (single_search { env with plotAct := pa2 } { p with plot := false }).etaSig,
      (single_search { env with plotAct := pa2 } { p with plot := false }).mFreq,
      (single_search { env with plotAct := pa2 } { p with plot := false }).mTime) :=
  rfl
